import Mathlib

/-!
Shallow embedding of the svpwm repository (circle limitation, reverse Park
rotation, and the SVPWM encoder of svpwm.c), together with theorems that
settle the specification claims about it.

Integer code (circle_limitation.c) is modelled over ℤ and ℕ with explicit
wraparound where the C types matter; the floating-point code (svpwm.c and
MCM_Rev_Park.c) is modelled over ℝ, the claims about it being stated in
exact real arithmetic.
-/

namespace Svpwm

/-- Constant MAX_MODULE from circle_limitation.h. -/
def MAX_MODULE : ℕ := 30800

/-- Constant START_INDEX from circle_limitation.h. -/
def START_INDEX : ℕ := 56

/-- The 72 entries of the MMITABLE initializer from circle_limitation.h. -/
def MMITABLE : List ℕ :=
  [32607, 32293, 31988, 31691, 31546, 31261, 30984, 30714, 30451, 30322,
   30069, 29822, 29581, 29346, 29231, 29004, 28782, 28565, 28353, 28249,
   28044, 27843, 27647, 27455, 27360, 27174, 26991, 26812, 26724, 26550,
   26380, 26213, 26049, 25968, 25808, 25652, 25498, 25347, 25272, 25125,
   24981, 24839, 24699, 24630, 24494, 24360, 24228, 24098, 24034, 23908,
   23783, 23660, 23600, 23480, 23361, 23245, 23131, 23074, 22962, 22851,
   22742, 22635, 22582, 22477, 22373, 22271, 22170, 22120, 22021, 21924,
   21827, 21732]

/-- The Circle_limit_table field of CircleLimitationM1: a uint16_t array of
87 entries whose aggregate initializer MMITABLE supplies the first 72; C
aggregate initialization zero-fills the remaining 15 entries. -/
def Circle_limit_table : List ℕ := MMITABLE ++ List.replicate 15 0

/-- Struct qd_t from circle_limitation.h: a pair of int16_t components.
Components are modelled as unbounded integers; the int16_t range
[-32768, 32767] appears as a hypothesis where a claim needs it. -/
structure qd_t where
  q : ℤ
  d : ℤ
  deriving DecidableEq, Repr

/-- Narrowing conversion to int16_t as on the two-complement target:
reduce modulo 2^16 into [-32768, 32767]. -/
def toInt16 (x : ℤ) : ℤ := (x + 32768) % 65536 - 32768

/-- The value uw_temp of Circle_Limitation: the int32_t sum of squares
sw_temp = q*q + d*d reinterpreted as uint32_t. The sum of squares is
nonnegative, so the uint32_t bit pattern is exactly the mathematical sum
reduced modulo 2^32 (the reduction only matters at q = d = -32768, where
the int32_t addition overflows to the bit pattern 2^31). -/
def uwTemp (v : qd_t) : ℕ := (v.q * v.q + v.d * v.d).toNat % 4294967296

/-- The table index computed by Circle_Limitation: uw_temp /= 16777216;
uw_temp -= Start_index; followed by the (uint8_t) cast in the array
subscript. Under the guard uw_temp > MaxModule^2 the quotient is at least
56 = Start_index, so the truncated ℕ subtraction agrees with the uint32_t
subtraction of the C code. -/
def limiterIndex (v : qd_t) : ℕ := (uwTemp v / 16777216 - START_INDEX) % 256

/-- Function Circle_Limitation from circle_limitation.c (the table-driven
branch, which is the one compiled: CIRCLE_LIMITATION_VD is not defined).
If q^2 + d^2 exceeds MaxModule^2, both components are rescaled by
table_element / 32768 with C truncating division and narrowed to int16_t;
otherwise the input is returned unchanged. -/
def Circle_Limitation (v : qd_t) : qd_t :=
  if MAX_MODULE * MAX_MODULE < uwTemp v then
    let table_element : ℕ := Circle_limit_table.getD (limiterIndex v) 0
    { q := toInt16 ((v.q * (table_element : ℤ)).tdiv 32768)
      d := toInt16 ((v.d * (table_element : ℤ)).tdiv 32768) }
  else v

/-- Squared magnitude of a qd_t vector. The vector magnitudes compared by
the claims are nonnegative, so all magnitude comparisons are stated on
squares. -/
def magSq (v : qd_t) : ℤ := v.q * v.q + v.d * v.d

/- ------------------------------------------------------------------ -/
/- Real-valued model of svpwm.c and MCM_Rev_Park.c.                    -/
/- ------------------------------------------------------------------ -/

/-- The condition tested by the if/else chain of mdlOutputs in svpwm.c
that selects sector n, for an angle deg in degrees. Sector numbers
outside 1..6 select no wedge. -/
def sectorCond (n : ℕ) (deg : ℝ) : Prop :=
  if n = 1 then 0 ≤ deg ∧ deg ≤ 60
  else if n = 2 then 60 < deg ∧ deg ≤ 120
  else if n = 3 then 120 < deg ∧ deg ≤ 180
  else if n = 4 then deg < -120 ∧ -180 < deg
  else if n = 5 then deg < -60 ∧ -120 ≤ deg
  else if n = 6 then deg < 0 ∧ -60 ≤ deg
  else False

/-- Sector selection of mdlOutputs in svpwm.c: the if/else chain over the
angle in degrees, with the defensive fallback branch returning 1. -/
noncomputable def sector (deg : ℝ) : ℕ :=
  if 0 ≤ deg ∧ deg ≤ 60 then 1
  else if 60 < deg ∧ deg ≤ 120 then 2
  else if 120 < deg ∧ deg ≤ 180 then 3
  else if deg < -120 ∧ -180 < deg then 4
  else if deg < -60 ∧ -120 ≤ deg then 5
  else if deg < 0 ∧ -60 ≤ deg then 6
  else 1

/-- The C library function atan2(y, x), modelled as the argument of the
complex number x + y i: range (-pi, pi], and atan2(0, 0) = 0. -/
noncomputable def atan2 (y x : ℝ) : ℝ := Complex.arg ⟨x, y⟩

/-- Angle computed by mdlOutputs: angle = atan2(Vb, Va) on the descaled
inputs Va = u0 / 2^14, Vb = u1 / 2^14, in radians. -/
noncomputable def angleOf (u0 u1 : ℝ) : ℝ := atan2 (u1 / 2 ^ 14) (u0 / 2 ^ 14)

/-- Modulation index computed by mdlOutputs: Mi = sqrt(Vb*Vb + Va*Va) on
the descaled inputs. -/
noncomputable def modIndex (u0 u1 : ℝ) : ℝ :=
  Real.sqrt (u1 / 2 ^ 14 * (u1 / 2 ^ 14) + u0 / 2 ^ 14 * (u0 / 2 ^ 14))

/-- Angle in degrees: deg = angle * 180 / PI. -/
noncomputable def degOf (u0 u1 : ℝ) : ℝ := angleOf u0 u1 * 180 / Real.pi

/-- Duty fraction del1 of mdlOutputs, for modulation index Mi, angle
theta (radians) and sector number n. -/
noncomputable def del1 (Mi theta : ℝ) (n : ℕ) : ℝ :=
  2 / Real.sqrt 3 * Mi *
    (Real.cos theta * Real.sin ((n : ℝ) * Real.pi / 3) -
     Real.sin theta * Real.cos ((n : ℝ) * Real.pi / 3))

/-- Duty fraction del2 of mdlOutputs. -/
noncomputable def del2 (Mi theta : ℝ) (n : ℕ) : ℝ :=
  2 / Real.sqrt 3 * Mi *
    (Real.sin theta * Real.cos (((n : ℝ) - 1) * Real.pi / 3) -
     Real.cos theta * Real.sin (((n : ℝ) - 1) * Real.pi / 3))

/-- Zero-vector fraction del3 = 1 - fabs(del1) - fabs(del2). -/
noncomputable def del3 (Mi theta : ℝ) (n : ℕ) : ℝ :=
  1 - |del1 Mi theta n| - |del2 Mi theta n|

/-- Dwell times (T1, T2, Tz) = (del1*Ts, del2*Ts, del3*Ts) computed by
mdlOutputs from the raw inputs u0 = Ui0(0), u1 = Ui0(1) and the carrier
period parameter Ts. -/
noncomputable def dwellTimes (u0 u1 Ts : ℝ) : ℝ × ℝ × ℝ :=
  (del1 (modIndex u0 u1) (angleOf u0 u1) (sector (degOf u0 u1)) * Ts,
   del2 (modIndex u0 u1) (angleOf u0 u1) (sector (degOf u0 u1)) * Ts,
   del3 (modIndex u0 u1) (angleOf u0 u1) (sector (degOf u0 u1)) * Ts)

/-- The sector switch of mdlOutputs mapping (ta, tb, tc, td) to the
three comparator thresholds (sine1, sine2, sine3); the default branch
repeats the sector-1 row. -/
def sineSelect (sec : ℕ) (ta tb tc td : ℝ) : ℝ × ℝ × ℝ :=
  match sec with
  | 1 => (ta, tc, td)
  | 2 => (tb, ta, td)
  | 3 => (td, ta, tc)
  | 4 => (td, tb, ta)
  | 5 => (tc, td, ta)
  | 6 => (ta, td, tb)
  | _ => (ta, tc, td)

/-- Comparator thresholds of mdlOutputs: td = Tz/2, ta = T1 + T2 + td,
tb = T1 + td, tc = T2 + td, dispatched through the sector switch. -/
noncomputable def gateThresholds (u0 u1 Ts : ℝ) : ℝ × ℝ × ℝ :=
  sineSelect (sector (degOf u0 u1))
    ((dwellTimes u0 u1 Ts).1 + (dwellTimes u0 u1 Ts).2.1 + (dwellTimes u0 u1 Ts).2.2 / 2)
    ((dwellTimes u0 u1 Ts).1 + (dwellTimes u0 u1 Ts).2.2 / 2)
    ((dwellTimes u0 u1 Ts).2.1 + (dwellTimes u0 u1 Ts).2.2 / 2)
    ((dwellTimes u0 u1 Ts).2.2 / 2)

/-- The nine-element output vector y of mdlOutputs in svpwm.c. -/
structure SVPWMOutputs where
  U : ℝ
  V : ℝ
  W : ℝ
  angle : ℝ
  sectorOut : ℝ
  carrierValue : ℝ
  T1 : ℝ
  T2 : ℝ
  Tz : ℝ

/-- Function mdlOutputs of svpwm.c: inputs u0 = Ui0(0), u1 = Ui0(1), the
continuous carrier state x0 = x[0], and the parameters Vbus and Ts. The
compared ramp is 4.0 * x[0]; each phase emits Vbus when its threshold
exceeds the ramp and 0 otherwise; y[3..8] are the diagnostics. -/
noncomputable def svpwm_mdlOutputs (u0 u1 x0 Vbus Ts : ℝ) : SVPWMOutputs :=
  { U := if (gateThresholds u0 u1 Ts).1 > 4.0 * x0 then Vbus else 0
    V := if (gateThresholds u0 u1 Ts).2.1 > 4.0 * x0 then Vbus else 0
    W := if (gateThresholds u0 u1 Ts).2.2 > 4.0 * x0 then Vbus else 0
    angle := angleOf u0 u1
    sectorOut := (sector (degOf u0 u1) : ℝ)
    carrierValue := 4.0 * x0
    T1 := (dwellTimes u0 u1 Ts).1
    T2 := (dwellTimes u0 u1 Ts).2.1
    Tz := (dwellTimes u0 u1 Ts).2.2 }

/-- Function mdlInitializeConditions of svpwm.c: the loop writes 0.0 to
each of the NUM_CSTATES = 1 continuous states. -/
def svpwm_mdlInitializeConditions : Fin 1 → ℝ := fun _ => 0.0

set_option linter.unusedVariables false in
/-- Function mdlDerivatives of svpwm.c: dx[0] = Ui1(0) - 0.500. The
arguments x0 (the carrier state) and u0 (the primary input pair Ui0)
model the rest of the environment the function could read; the code
reads neither. -/
def svpwm_mdlDerivatives (x0 : ℝ) (u0 : ℝ × ℝ) (u1 : ℝ) : ℝ := u1 - 0.500

/-- The reverse Park rotation of mdlOutputs in MCM_Rev_Park.c:
y[0] = q*cos(theta) + d*sin(theta), y[1] = -q*sin(theta) + d*cos(theta). -/
noncomputable def MCM_Rev_Park_rotate (q d theta : ℝ) : ℝ × ℝ :=
  (q * Real.cos theta + d * Real.sin theta,
   -q * Real.sin theta + d * Real.cos theta)

/- ------------------------------------------------------------------ -/
/- Supporting lemmas for the circle limitation claims.                 -/
/- ------------------------------------------------------------------ -/

lemma toInt16_id (x : ℤ) (h1 : -32768 ≤ x) (h2 : x ≤ 32767) : toInt16 x = x := by
  unfold toInt16
  omega

lemma uwTemp_eq (v : qd_t) (hq : v.q.natAbs ≤ 32768) (hd : v.d.natAbs ≤ 32768) :
    uwTemp v = v.q.natAbs * v.q.natAbs + v.d.natAbs * v.d.natAbs := by
  unfold uwTemp
  have h1 : (v.q * v.q + v.d * v.d).toNat
      = v.q.natAbs * v.q.natAbs + v.d.natAbs * v.d.natAbs := by
    have hqq := Int.natAbs_mul_self' v.q
    have hdd := Int.natAbs_mul_self' v.d
    omega
  rw [h1]
  apply Nat.mod_eq_of_lt
  have hq2 : v.q.natAbs * v.q.natAbs ≤ 32768 * 32768 := Nat.mul_le_mul hq hq
  have hd2 : v.d.natAbs * v.d.natAbs ≤ 32768 * 32768 := Nat.mul_le_mul hd hd
  omega

lemma uwTemp_toNat (v : qd_t) (hq : v.q.natAbs ≤ 32768) (hd : v.d.natAbs ≤ 32768) :
    (uwTemp v : ℤ) = magSq v := by
  rw [uwTemp_eq v hq hd]
  unfold magSq
  push_cast
  rw [abs_mul_abs_self, abs_mul_abs_self]

lemma table_entry_le (j : ℕ) : Circle_limit_table.getD j 0 ≤ 32607 := by
  rcases Nat.lt_or_ge j 87 with h | h
  · have hall : ∀ i < 87, Circle_limit_table.getD i 0 ≤ 32607 := by decide
    exact hall j h
  · rw [List.getD_eq_default]
    · exact Nat.zero_le _
    · have : Circle_limit_table.length = 87 := by decide
      omega

lemma bucket_check :
    ∀ j < 73, ((j + 57) * 16777216 - 1) * (Circle_limit_table.getD j 0) ^ 2
      ≤ 948640000 * 1073741824 := by decide

lemma component_natAbs (a : ℤ) (k : ℕ) :
    ((a * (k : ℤ)).tdiv 32768).natAbs = a.natAbs * k / 32768 := by
  rw [Int.natAbs_tdiv, Int.natAbs_mul]
  rfl

lemma component_eq (a : ℤ) (k : ℕ) (ha : a.natAbs ≤ 32768) (hk : k ≤ 32607) :
    toInt16 ((a * (k : ℤ)).tdiv 32768) = (a * (k : ℤ)).tdiv 32768 := by
  have hnat := component_natAbs a k
  have hle : a.natAbs * k / 32768 ≤ 32607 := by
    calc a.natAbs * k / 32768 ≤ 32768 * 32607 / 32768 :=
          Nat.div_le_div_right (Nat.mul_le_mul ha hk)
    _ = 32607 := by norm_num
  apply toInt16_id <;> omega

lemma component_mul_le (a : ℤ) (k : ℕ) :
    ((a * (k : ℤ)).tdiv 32768).natAbs * 32768 ≤ a.natAbs * k := by
  rw [component_natAbs a k]
  exact Nat.div_mul_le_self _ _

lemma tdiv_sign_keep (a : ℤ) (k : ℕ) :
    (a * (k : ℤ)).tdiv 32768 = 0 ∨ ((a * (k : ℤ)).tdiv 32768).sign = a.sign := by
  rcases Nat.eq_zero_or_pos k with hk | hk
  · left
    simp [hk]
  rcases lt_trichotomy a 0 with ha | ha | ha
  · have hneg : a * (k : ℤ) ≤ 0 :=
      mul_nonpos_of_nonpos_of_nonneg (le_of_lt ha) (by positivity)
    have hx : (a * (k : ℤ)).tdiv 32768 ≤ 0 := by
      have h := Int.tdiv_nonneg (a := -(a * (k : ℤ))) (b := 32768) (by omega) (by norm_num)
      rw [Int.neg_tdiv] at h
      omega
    rcases eq_or_lt_of_le hx with h0 | h0
    · left
      exact h0
    · right
      rw [Int.sign_eq_neg_one_of_neg h0, Int.sign_eq_neg_one_of_neg ha]
  · left
    simp [ha]
  · have hpos : 0 ≤ a * (k : ℤ) := by positivity
    have hx : 0 ≤ (a * (k : ℤ)).tdiv 32768 := Int.tdiv_nonneg hpos (by norm_num)
    rcases eq_or_lt_of_le hx with h0 | h0
    · left
      exact h0.symm
    · right
      rw [Int.sign_eq_one_of_pos h0, Int.sign_eq_one_of_pos ha]

lemma limited_magSq_le (q d : ℤ) (h1 : -32768 ≤ q) (h2 : q ≤ 32767)
    (h3 : -32768 ≤ d) (h4 : d ≤ 32767)
    (h5 : MAX_MODULE * MAX_MODULE < uwTemp ⟨q, d⟩) :
    magSq (Circle_Limitation ⟨q, d⟩) ≤ (MAX_MODULE : ℤ) * MAX_MODULE := by
  have ha : q.natAbs ≤ 32768 := by omega
  have hb : d.natAbs ≤ 32768 := by omega
  have huw : uwTemp ⟨q, d⟩ = q.natAbs * q.natAbs + d.natAbs * d.natAbs :=
    uwTemp_eq ⟨q, d⟩ ha hb
  set s := uwTemp ⟨q, d⟩ with hs
  have hs31 : s ≤ 2147483648 := by
    have hq2 : q.natAbs * q.natAbs ≤ 1073741824 := Nat.mul_le_mul ha ha
    have hd2 : d.natAbs * d.natAbs ≤ 1073741824 := Nat.mul_le_mul hb hb
    omega
  have hM : MAX_MODULE * MAX_MODULE = 948640000 := by norm_num [MAX_MODULE]
  have h5' : 948640000 < s := by rw [hM] at h5; exact h5
  set b := s / 16777216 with hbdef
  have hb56 : 56 ≤ b := by
    rw [hbdef, Nat.le_div_iff_mul_le (by norm_num)]
    omega
  have hb128 : b ≤ 128 := by
    rw [hbdef]
    calc s / 16777216 ≤ 2147483648 / 16777216 := Nat.div_le_div_right hs31
    _ = 128 := by norm_num
  have hidx : limiterIndex ⟨q, d⟩ = b - 56 := by
    unfold limiterIndex START_INDEX
    rw [← hs, ← hbdef]
    apply Nat.mod_eq_of_lt
    omega
  have hslt : s < (b + 1) * 16777216 := by
    have hlt : s / 16777216 < b + 1 := by omega
    exact (Nat.div_lt_iff_lt_mul (by norm_num)).mp hlt
  set k := Circle_limit_table.getD (b - 56) 0 with hkdef
  have hk : k ≤ 32607 := table_entry_le _
  have hcheck := bucket_check (b - 56) (by omega)
  rw [← hkdef] at hcheck
  -- bound the squared magnitude of the scaled components
  set x := (q * (k : ℤ)).tdiv 32768 with hxdef
  set y := (d * (k : ℤ)).tdiv 32768 with hydef
  have hxb : x.natAbs * 32768 ≤ q.natAbs * k := component_mul_le q k
  have hyb : y.natAbs * 32768 ≤ d.natAbs * k := component_mul_le d k
  have hx2 : x.natAbs * x.natAbs * (32768 * 32768) ≤ q.natAbs * q.natAbs * (k * k) := by
    calc x.natAbs * x.natAbs * (32768 * 32768)
        = x.natAbs * 32768 * (x.natAbs * 32768) := by ring
    _ ≤ q.natAbs * k * (q.natAbs * k) := Nat.mul_le_mul hxb hxb
    _ = q.natAbs * q.natAbs * (k * k) := by ring
  have hy2 : y.natAbs * y.natAbs * (32768 * 32768) ≤ d.natAbs * d.natAbs * (k * k) := by
    calc y.natAbs * y.natAbs * (32768 * 32768)
        = y.natAbs * 32768 * (y.natAbs * 32768) := by ring
    _ ≤ d.natAbs * k * (d.natAbs * k) := Nat.mul_le_mul hyb hyb
    _ = d.natAbs * d.natAbs * (k * k) := by ring
  have hsum : (x.natAbs * x.natAbs + y.natAbs * y.natAbs) * 1073741824 ≤ s * (k * k) := by
    rw [huw]
    calc (x.natAbs * x.natAbs + y.natAbs * y.natAbs) * 1073741824
        = x.natAbs * x.natAbs * (32768 * 32768) + y.natAbs * y.natAbs * (32768 * 32768) := by
          ring
    _ ≤ q.natAbs * q.natAbs * (k * k) + d.natAbs * d.natAbs * (k * k) :=
          Nat.add_le_add hx2 hy2
    _ = (q.natAbs * q.natAbs + d.natAbs * d.natAbs) * (k * k) := by ring
  have hbig : s * (k * k) ≤ 948640000 * 1073741824 := by
    have hkk : k ^ 2 = k * k := sq k
    have hs' : s ≤ (b - 56 + 57) * 16777216 - 1 := by omega
    calc s * (k * k) ≤ ((b - 56 + 57) * 16777216 - 1) * (k * k) :=
          Nat.mul_le_mul_right _ hs'
    _ = ((b - 56 + 57) * 16777216 - 1) * k ^ 2 := by rw [hkk]
    _ ≤ 948640000 * 1073741824 := hcheck
  have hfinal : x.natAbs * x.natAbs + y.natAbs * y.natAbs ≤ 948640000 := by
    have h' := le_trans hsum hbig
    exact Nat.le_of_mul_le_mul_right h' (by norm_num)
  -- evaluate the limiter on the out-of-circle branch
  unfold Circle_Limitation
  rw [if_pos h5]
  show magSq
      ⟨toInt16 ((q * ((Circle_limit_table.getD (limiterIndex ⟨q, d⟩) 0 : ℕ) : ℤ)).tdiv 32768),
       toInt16 ((d * ((Circle_limit_table.getD (limiterIndex ⟨q, d⟩) 0 : ℕ) : ℤ)).tdiv 32768)⟩
    ≤ (MAX_MODULE : ℤ) * MAX_MODULE
  rw [hidx, ← hkdef, component_eq q k ha hk, component_eq d k hb hk]
  have hMM : (MAX_MODULE : ℤ) * MAX_MODULE = 948640000 := by norm_num [MAX_MODULE]
  rw [hMM]
  unfold magSq
  show x * x + y * y ≤ (948640000 : ℤ)
  rw [← Int.natAbs_mul_self' x, ← Int.natAbs_mul_self' y]
  exact_mod_cast hfinal

lemma guard_of_magSq (q d : ℤ) (h1 : -32768 ≤ q) (h2 : q ≤ 32767)
    (h3 : -32768 ≤ d) (h4 : d ≤ 32767)
    (h5 : (MAX_MODULE : ℤ) ^ 2 < q ^ 2 + d ^ 2) :
    MAX_MODULE * MAX_MODULE < uwTemp ⟨q, d⟩ := by
  have ha : q.natAbs ≤ 32768 := by omega
  have hb : d.natAbs ≤ 32768 := by omega
  have huw : (uwTemp ⟨q, d⟩ : ℤ) = magSq ⟨q, d⟩ := uwTemp_toNat ⟨q, d⟩ ha hb
  have hms : magSq ⟨q, d⟩ = q * q + d * d := rfl
  have h5' : (948640000 : ℤ) < q * q + d * d := by
    have hMM : (MAX_MODULE : ℤ) ^ 2 = 948640000 := by norm_num [MAX_MODULE]
    nlinarith [h5]
  have hMN : MAX_MODULE * MAX_MODULE = 948640000 := by norm_num [MAX_MODULE]
  rw [hMN]
  have hcast : (948640000 : ℤ) < (uwTemp ⟨q, d⟩ : ℤ) := by
    rw [huw, hms]
    exact h5'
  exact_mod_cast hcast

/- ------------------------------------------------------------------ -/
/- Sector selection lemmas for svpwm.c.                                -/
/- ------------------------------------------------------------------ -/

lemma sectorCond_unique (m n : ℕ) (deg : ℝ) (hm : sectorCond m deg)
    (hn : sectorCond n deg) : m = n := by
  unfold sectorCond at hm hn
  split_ifs at hm hn <;>
    first
      | omega
      | exact hm.elim
      | exact hn.elim
      | (exfalso; linarith [hm.1, hm.2, hn.1, hn.2])

lemma sector_mem_cond (deg : ℝ) (h1 : -180 < deg) (h2 : deg ≤ 180) :
    sectorCond (sector deg) deg := by
  unfold sector
  split_ifs with c1 c2 c3 c4 c5 c6
  · simpa [sectorCond] using c1
  · simpa [sectorCond] using c2
  · simpa [sectorCond] using c3
  · simpa [sectorCond] using c4
  · simpa [sectorCond] using c5
  · simpa [sectorCond] using c6
  · exfalso
    push_neg at c1 c2 c3 c4 c5 c6
    rcases le_or_lt 0 deg with h0 | h0
    · have h60 := c1 h0
      have h120 := c2 h60
      have h180 := c3 h120
      linarith
    · have hn60 := c6 h0
      have hn120 := c5 hn60
      have hn180 := c4 hn120
      linarith

lemma sector_eq_of_sectorCond (n : ℕ) (deg : ℝ) (h : sectorCond n deg) :
    sector deg = n := by
  unfold sector
  split_ifs with c1 c2 c3 c4 c5 c6
  · exact sectorCond_unique 1 n deg (by simpa [sectorCond] using c1) h
  · exact sectorCond_unique 2 n deg (by simpa [sectorCond] using c2) h
  · exact sectorCond_unique 3 n deg (by simpa [sectorCond] using c3) h
  · exact sectorCond_unique 4 n deg (by simpa [sectorCond] using c4) h
  · exact sectorCond_unique 5 n deg (by simpa [sectorCond] using c5) h
  · exact sectorCond_unique 6 n deg (by simpa [sectorCond] using c6) h
  · exfalso
    unfold sectorCond at h
    split_ifs at h
    exacts [c1 h, c2 h, c3 h, c4 h, c5 h, c6 h]

/- ------------------------------------------------------------------ -/
/- Claims about the circle limitation.                                 -/
/- ------------------------------------------------------------------ -/

/-- C2: for every input vector with q^2 + d^2 at most MaxModule^2,
Circle_Limitation returns the input unchanged; the boundary case
q^2 + d^2 = MaxModule^2 is included in the pass-through case, since the
limiting branch is guarded by a strict comparison. -/
theorem C2_in_circle_unchanged (q d : ℤ)
    (h : q ^ 2 + d ^ 2 ≤ (MAX_MODULE : ℤ) ^ 2) :
    Circle_Limitation ⟨q, d⟩ = ⟨q, d⟩ := by
  unfold Circle_Limitation
  rw [if_neg]
  push_neg
  have hMM : (MAX_MODULE : ℤ) ^ 2 = 948640000 := by norm_num [MAX_MODULE]
  have h' : q * q + d * d ≤ (948640000 : ℤ) := by nlinarith [h]
  have ht : (q * q + d * d).toNat ≤ 948640000 := by omega
  have hMN : MAX_MODULE * MAX_MODULE = 948640000 := by norm_num [MAX_MODULE]
  show uwTemp ⟨q, d⟩ ≤ MAX_MODULE * MAX_MODULE
  unfold uwTemp
  show (q * q + d * d).toNat % 4294967296 ≤ MAX_MODULE * MAX_MODULE
  omega

/-- Witness for C2 at the boundary scenario: the vector (30800, 0) of
magnitude exactly MaxModule and zero angle passes through unchanged. -/
theorem C2_in_circle_unchanged_witness :
    (30800 : ℤ) ^ 2 + (0 : ℤ) ^ 2 ≤ (MAX_MODULE : ℤ) ^ 2 ∧
    Circle_Limitation ⟨30800, 0⟩ = ⟨30800, 0⟩ :=
  ⟨by norm_num [MAX_MODULE],
   C2_in_circle_unchanged 30800 0 (by norm_num [MAX_MODULE])⟩

/-- C1: for every 16-bit input with q^2 + d^2 exceeding MaxModule^2 the
limited output has squared magnitude at most MaxModule^2 — hence its
magnitude is at most MaxModule, which is stronger than the claimed
one-table-quantization-step slack; and at the particular input
q = d = 32767 the output squared magnitude is strictly below the input
squared magnitude and at most MaxModule^2. -/
theorem C1_limited_magnitude :
    (∀ q d : ℤ, -32768 ≤ q → q ≤ 32767 → -32768 ≤ d → d ≤ 32767 →
      (MAX_MODULE : ℤ) ^ 2 < q ^ 2 + d ^ 2 →
      magSq (Circle_Limitation ⟨q, d⟩) ≤ (MAX_MODULE : ℤ) ^ 2) ∧
    magSq (Circle_Limitation ⟨32767, 32767⟩) < magSq ⟨32767, 32767⟩ ∧
    magSq (Circle_Limitation ⟨32767, 32767⟩) ≤ (MAX_MODULE : ℤ) ^ 2 := by
  refine ⟨?_, by decide, by decide⟩
  intro q d h1 h2 h3 h4 h5
  have hsq : (MAX_MODULE : ℤ) ^ 2 = (MAX_MODULE : ℤ) * MAX_MODULE := sq _
  rw [hsq]
  exact limited_magSq_le q d h1 h2 h3 h4 (guard_of_magSq q d h1 h2 h3 h4 h5)

/-- Witness for C1 at the concrete out-of-circle input (32767, 0). -/
theorem C1_limited_magnitude_witness :
    (MAX_MODULE : ℤ) ^ 2 < (32767 : ℤ) ^ 2 + (0 : ℤ) ^ 2 ∧
    magSq (Circle_Limitation ⟨32767, 0⟩) ≤ (MAX_MODULE : ℤ) ^ 2 :=
  ⟨by norm_num [MAX_MODULE],
   C1_limited_magnitude.1 32767 0 (by norm_num) (by norm_num) (by norm_num)
     (by norm_num) (by norm_num [MAX_MODULE])⟩

/-- C5 (amended): for every 16-bit input with q^2 + d^2 exceeding
MaxModule^2, each component of the limited output is either zero or has
the sign of the corresponding input component — the sign is never
inverted. The original claim of exact sign preservation fails because
the truncating division can send a small nonzero component to zero. -/
theorem C5_sign_never_flipped (q d : ℤ) (h1 : -32768 ≤ q) (h2 : q ≤ 32767)
    (h3 : -32768 ≤ d) (h4 : d ≤ 32767)
    (h5 : (MAX_MODULE : ℤ) ^ 2 < q ^ 2 + d ^ 2) :
    ((Circle_Limitation ⟨q, d⟩).q = 0 ∨
      (Circle_Limitation ⟨q, d⟩).q.sign = q.sign) ∧
    ((Circle_Limitation ⟨q, d⟩).d = 0 ∨
      (Circle_Limitation ⟨q, d⟩).d.sign = d.sign) := by
  have ha : q.natAbs ≤ 32768 := by omega
  have hb : d.natAbs ≤ 32768 := by omega
  have hk := table_entry_le (limiterIndex ⟨q, d⟩)
  unfold Circle_Limitation
  rw [if_pos (guard_of_magSq q d h1 h2 h3 h4 h5)]
  constructor
  · show toInt16 ((q * ((Circle_limit_table.getD (limiterIndex ⟨q, d⟩) 0 : ℕ) : ℤ)).tdiv 32768) = 0 ∨
        (toInt16 ((q * ((Circle_limit_table.getD (limiterIndex ⟨q, d⟩) 0 : ℕ) : ℤ)).tdiv 32768)).sign = q.sign
    rw [component_eq q _ ha hk]
    exact tdiv_sign_keep q _
  · show toInt16 ((d * ((Circle_limit_table.getD (limiterIndex ⟨q, d⟩) 0 : ℕ) : ℤ)).tdiv 32768) = 0 ∨
        (toInt16 ((d * ((Circle_limit_table.getD (limiterIndex ⟨q, d⟩) 0 : ℕ) : ℤ)).tdiv 32768)).sign = d.sign
    rw [component_eq d _ hb hk]
    exact tdiv_sign_keep d _

/-- Witness for C5 (amended) at the concrete input (32767, 32767). -/
theorem C5_sign_never_flipped_witness :
    (MAX_MODULE : ℤ) ^ 2 < (32767 : ℤ) ^ 2 + (32767 : ℤ) ^ 2 ∧
    ((Circle_Limitation ⟨32767, 32767⟩).q = 0 ∨
      (Circle_Limitation ⟨32767, 32767⟩).q.sign = (32767 : ℤ).sign) :=
  ⟨by norm_num [MAX_MODULE],
   (C5_sign_never_flipped 32767 32767 (by norm_num) (by norm_num) (by norm_num)
     (by norm_num) (by norm_num [MAX_MODULE])).1⟩

/-- C5 counterexample: the input (q, d) = (1, 32767) lies outside the
circle and is not the zero vector, yet the limited output has
q-component 0, whose sign differs from sign(q) = 1: the claimed exact
sign preservation does not hold. -/
theorem C5_counterexample :
    (MAX_MODULE : ℤ) ^ 2 < (1 : ℤ) ^ 2 + (32767 : ℤ) ^ 2 ∧
    ¬((1 : ℤ) = 0 ∧ (32767 : ℤ) = 0) ∧
    (Circle_Limitation ⟨1, 32767⟩).q.sign ≠ (1 : ℤ).sign := by
  refine ⟨by norm_num [MAX_MODULE], by norm_num, by decide⟩

/-- C10 (amended): for every 16-bit input with q^2 + d^2 exceeding
MaxModule^2 other than the single corner (q, d) = (-32768, -32768), the
quotient uw_temp / 2^24 lies in [56, 127], so the table index
uw_temp / 2^24 - 56 lies in [0, 71]: the (uint8_t) cast does not wrap
and the lookup stays within the 72 explicitly initialized entries of
Circle_limit_table. At the excluded corner the quotient is 128 and the
index is 72 (see the counterexample). -/
theorem C10_index_range (q d : ℤ) (h1 : -32768 ≤ q) (h2 : q ≤ 32767)
    (h3 : -32768 ≤ d) (h4 : d ≤ 32767)
    (h5 : (MAX_MODULE : ℤ) ^ 2 < q ^ 2 + d ^ 2)
    (hc : ¬(q = -32768 ∧ d = -32768)) :
    56 ≤ uwTemp ⟨q, d⟩ / 16777216 ∧ uwTemp ⟨q, d⟩ / 16777216 ≤ 127 ∧
    limiterIndex ⟨q, d⟩ = uwTemp ⟨q, d⟩ / 16777216 - 56 ∧
    limiterIndex ⟨q, d⟩ ≤ 71 := by
  have ha : q.natAbs ≤ 32768 := by omega
  have hb : d.natAbs ≤ 32768 := by omega
  have hguard := guard_of_magSq q d h1 h2 h3 h4 h5
  have hMN : MAX_MODULE * MAX_MODULE = 948640000 := by norm_num [MAX_MODULE]
  have huw : uwTemp ⟨q, d⟩ = q.natAbs * q.natAbs + d.natAbs * d.natAbs :=
    uwTemp_eq ⟨q, d⟩ ha hb
  have hupper : uwTemp ⟨q, d⟩ ≤ 2147418113 := by
    rcases Nat.eq_or_lt_of_le ha with hq32 | hq32
    · have hd' : d.natAbs ≤ 32767 := by omega
      have hqq : q.natAbs * q.natAbs ≤ 32768 * 32768 := Nat.mul_le_mul ha ha
      have hdd : d.natAbs * d.natAbs ≤ 32767 * 32767 := Nat.mul_le_mul hd' hd'
      omega
    · have hq' : q.natAbs ≤ 32767 := by omega
      have hqq : q.natAbs * q.natAbs ≤ 32767 * 32767 := Nat.mul_le_mul hq' hq'
      have hdd : d.natAbs * d.natAbs ≤ 32768 * 32768 := Nat.mul_le_mul hb hb
      omega
  have h56 : 56 ≤ uwTemp ⟨q, d⟩ / 16777216 := by
    rw [Nat.le_div_iff_mul_le (by norm_num)]
    omega
  have h127 : uwTemp ⟨q, d⟩ / 16777216 ≤ 127 := by
    have hlt : uwTemp ⟨q, d⟩ / 16777216 < 128 :=
      (Nat.div_lt_iff_lt_mul (by norm_num)).mpr (by omega)
    omega
  have hidx : limiterIndex ⟨q, d⟩ = uwTemp ⟨q, d⟩ / 16777216 - 56 := by
    unfold limiterIndex START_INDEX
    exact Nat.mod_eq_of_lt (by omega)
  exact ⟨h56, h127, hidx, by rw [hidx]; omega⟩

/-- Witness for C10 (amended) at the concrete input (32767, 32767). -/
theorem C10_index_range_witness :
    (MAX_MODULE : ℤ) ^ 2 < (32767 : ℤ) ^ 2 + (32767 : ℤ) ^ 2 ∧
    limiterIndex ⟨32767, 32767⟩ ≤ 71 :=
  ⟨by norm_num [MAX_MODULE],
   (C10_index_range 32767 32767 (by norm_num) (by norm_num) (by norm_num)
     (by norm_num) (by norm_num [MAX_MODULE]) (by norm_num)).2.2.2⟩

/-- C10 counterexample: at the 16-bit input (q, d) = (-32768, -32768)
the limiting branch is taken but uw_temp / 2^24 = 128, outside the
claimed range [56, 127]; the table index is 72, so the lookup reads the
first zero-filled entry beyond the 72 explicitly initialized ones. -/
theorem C10_counterexample :
    MAX_MODULE * MAX_MODULE < uwTemp ⟨-32768, -32768⟩ ∧
    uwTemp ⟨-32768, -32768⟩ / 16777216 = 128 ∧
    limiterIndex ⟨-32768, -32768⟩ = 72 ∧
    Circle_limit_table.getD (limiterIndex ⟨-32768, -32768⟩) 0 = 0 := by
  refine ⟨by decide, by decide, by decide, by decide⟩

/- ------------------------------------------------------------------ -/
/- Claims about sector selection, rotation and the encoder outputs.    -/
/- ------------------------------------------------------------------ -/

/-- C4: over the assumed atan2 output range (-180, 180] in degrees,
exactly one of the six sector conditions holds — the wedges are
exhaustive and pairwise disjoint — and the selected sector satisfies
its own condition, so the defensive fallback branch that would return
sector 1 is unreachable under that precondition. -/
theorem C4_sectors_exhaustive_disjoint (deg : ℝ) (h1 : -180 < deg)
    (h2 : deg ≤ 180) :
    (∃! n : ℕ, sectorCond n deg) ∧ sectorCond (sector deg) deg := by
  have hx := sector_mem_cond deg h1 h2
  exact ⟨⟨sector deg, hx, fun m hm => sectorCond_unique m (sector deg) deg hm hx⟩, hx⟩

/-- Witness for C4 at the concrete angle 30 degrees. -/
theorem C4_sectors_exhaustive_disjoint_witness :
    ((-180 : ℝ) < 30 ∧ (30 : ℝ) ≤ 180) ∧
    ((∃! n : ℕ, sectorCond n 30) ∧ sectorCond (sector 30) 30) :=
  ⟨⟨by norm_num, by norm_num⟩,
   C4_sectors_exhaustive_disjoint 30 (by norm_num) (by norm_num)⟩

/-- C8: the rotation stage map of MCM_Rev_Park.c composed with the same
map at the negated angle recovers the original vector, exactly in real
arithmetic. -/
theorem C8_rotation_roundtrip (q d theta : ℝ) :
    MCM_Rev_Park_rotate (MCM_Rev_Park_rotate q d theta).1
      (MCM_Rev_Park_rotate q d theta).2 (-theta) = (q, d) := by
  unfold MCM_Rev_Park_rotate
  simp only [Real.cos_neg, Real.sin_neg, Prod.mk.injEq]
  constructor
  · linear_combination q * Real.sin_sq_add_cos_sq theta
  · linear_combination d * Real.sin_sq_add_cos_sq theta

/-- C6: at every tick, for every input and carrier state, each of the
three emitted phase outputs U, V, W of mdlOutputs is exactly 0 or
exactly the bus voltage parameter Vbus. -/
theorem C6_phase_outputs_binary (u0 u1 x0 Vbus Ts : ℝ) :
    ((svpwm_mdlOutputs u0 u1 x0 Vbus Ts).U = 0 ∨
      (svpwm_mdlOutputs u0 u1 x0 Vbus Ts).U = Vbus) ∧
    ((svpwm_mdlOutputs u0 u1 x0 Vbus Ts).V = 0 ∨
      (svpwm_mdlOutputs u0 u1 x0 Vbus Ts).V = Vbus) ∧
    ((svpwm_mdlOutputs u0 u1 x0 Vbus Ts).W = 0 ∨
      (svpwm_mdlOutputs u0 u1 x0 Vbus Ts).W = Vbus) := by
  have hU : (svpwm_mdlOutputs u0 u1 x0 Vbus Ts).U
      = if (gateThresholds u0 u1 Ts).1 > 4.0 * x0 then Vbus else 0 := rfl
  have hV : (svpwm_mdlOutputs u0 u1 x0 Vbus Ts).V
      = if (gateThresholds u0 u1 Ts).2.1 > 4.0 * x0 then Vbus else 0 := rfl
  have hW : (svpwm_mdlOutputs u0 u1 x0 Vbus Ts).W
      = if (gateThresholds u0 u1 Ts).2.2 > 4.0 * x0 then Vbus else 0 := rfl
  refine ⟨?_, ?_, ?_⟩
  · rw [hU]
    split
    exacts [Or.inr rfl, Or.inl rfl]
  · rw [hV]
    split
    exacts [Or.inr rfl, Or.inl rfl]
  · rw [hW]
    split
    exacts [Or.inr rfl, Or.inl rfl]

/-- C9: the value compared against the three phase thresholds and the
carrierValue diagnostic emitted on y[5] are both 4.0 times the stored
carrier state x[0]: each phase emits Vbus exactly when its threshold
exceeds 4 * x[0], and 0 otherwise. -/
theorem C9_ramp_is_scaled_state (u0 u1 x0 Vbus Ts : ℝ) :
    (svpwm_mdlOutputs u0 u1 x0 Vbus Ts).carrierValue = 4.0 * x0 ∧
    (svpwm_mdlOutputs u0 u1 x0 Vbus Ts).U
      = (if (gateThresholds u0 u1 Ts).1 > 4.0 * x0 then Vbus else 0) ∧
    (svpwm_mdlOutputs u0 u1 x0 Vbus Ts).V
      = (if (gateThresholds u0 u1 Ts).2.1 > 4.0 * x0 then Vbus else 0) ∧
    (svpwm_mdlOutputs u0 u1 x0 Vbus Ts).W
      = (if (gateThresholds u0 u1 Ts).2.2 > 4.0 * x0 then Vbus else 0) :=
  ⟨rfl, rfl, rfl, rfl⟩

/-- C7: the carrier integrator state is initialized to exactly zero, and
the derivative computed by mdlDerivatives equals the secondary input
minus the fixed bias 0.5, independent of the carrier state and of the
primary vector inputs. -/
theorem C7_carrier_init_and_derivative :
    (∀ i : Fin 1, svpwm_mdlInitializeConditions i = 0) ∧
    (∀ (x0 : ℝ) (u0 : ℝ × ℝ) (u1 : ℝ),
      svpwm_mdlDerivatives x0 u0 u1 = u1 - 0.5) ∧
    (∀ (x0 x0' : ℝ) (u0 u0' : ℝ × ℝ) (u1 : ℝ),
      svpwm_mdlDerivatives x0 u0 u1 = svpwm_mdlDerivatives x0' u0' u1) :=
  ⟨fun _ => by norm_num [svpwm_mdlInitializeConditions],
   fun _ _ u1 => by norm_num [svpwm_mdlDerivatives],
   fun _ _ _ _ _ => rfl⟩

/- ------------------------------------------------------------------ -/
/- Dwell time lemmas for claim C3.                                     -/
/- ------------------------------------------------------------------ -/

lemma theta_le_of_deg (theta c : ℝ) (h : theta * 180 / Real.pi ≤ c) :
    theta ≤ c * Real.pi / 180 := by
  have hpi := Real.pi_pos
  rw [div_le_iff₀ hpi] at h
  rw [le_div_iff₀ (by norm_num : (0:ℝ) < 180)]
  linarith

lemma theta_lt_of_deg (theta c : ℝ) (h : theta * 180 / Real.pi < c) :
    theta < c * Real.pi / 180 := by
  have hpi := Real.pi_pos
  rw [div_lt_iff₀ hpi] at h
  rw [lt_div_iff₀ (by norm_num : (0:ℝ) < 180)]
  linarith

lemma deg_le_theta (theta c : ℝ) (h : c ≤ theta * 180 / Real.pi) :
    c * Real.pi / 180 ≤ theta := by
  have hpi := Real.pi_pos
  rw [le_div_iff₀ hpi] at h
  rw [div_le_iff₀ (by norm_num : (0:ℝ) < 180)]
  linarith

lemma deg_lt_theta (theta c : ℝ) (h : c < theta * 180 / Real.pi) :
    c * Real.pi / 180 < theta := by
  have hpi := Real.pi_pos
  rw [lt_div_iff₀ hpi] at h
  rw [div_lt_iff₀ (by norm_num : (0:ℝ) < 180)]
  linarith

lemma del1_eq_sin (Mi theta : ℝ) (n : ℕ) :
    del1 Mi theta n
      = 2 / Real.sqrt 3 * Mi * Real.sin ((n : ℝ) * Real.pi / 3 - theta) := by
  unfold del1
  rw [Real.sin_sub]
  ring

lemma del2_eq_sin (Mi theta : ℝ) (n : ℕ) :
    del2 Mi theta n
      = 2 / Real.sqrt 3 * Mi * Real.sin (theta - ((n : ℝ) - 1) * Real.pi / 3) := by
  unfold del2
  rw [Real.sin_sub]

lemma del_nonneg (Mi theta : ℝ) (n : ℕ) (hMi : 0 ≤ Mi)
    (h : sectorCond n (theta * 180 / Real.pi)) :
    0 ≤ del1 Mi theta n ∧ 0 ≤ del2 Mi theta n := by
  have hpi := Real.pi_pos
  have hc : (0:ℝ) ≤ 2 / Real.sqrt 3 := by positivity
  rw [del1_eq_sin, del2_eq_sin]
  unfold sectorCond at h
  split_ifs at h with e1 e2 e3 e4 e5 e6
  · subst e1
    have hu : theta ≤ 60 * Real.pi / 180 := theta_le_of_deg _ _ h.2
    have hl : 0 * Real.pi / 180 ≤ theta := deg_le_theta _ _ h.1
    constructor
    · refine mul_nonneg (mul_nonneg hc hMi) ?_
      apply Real.sin_nonneg_of_nonneg_of_le_pi <;> push_cast <;> linarith
    · refine mul_nonneg (mul_nonneg hc hMi) ?_
      apply Real.sin_nonneg_of_nonneg_of_le_pi <;> push_cast <;> linarith
  · subst e2
    have hu : theta ≤ 120 * Real.pi / 180 := theta_le_of_deg _ _ h.2
    have hl : 60 * Real.pi / 180 < theta := deg_lt_theta _ _ h.1
    constructor
    · refine mul_nonneg (mul_nonneg hc hMi) ?_
      apply Real.sin_nonneg_of_nonneg_of_le_pi <;> push_cast <;> linarith
    · refine mul_nonneg (mul_nonneg hc hMi) ?_
      apply Real.sin_nonneg_of_nonneg_of_le_pi <;> push_cast <;> linarith
  · subst e3
    have hu : theta ≤ 180 * Real.pi / 180 := theta_le_of_deg _ _ h.2
    have hl : 120 * Real.pi / 180 < theta := deg_lt_theta _ _ h.1
    constructor
    · refine mul_nonneg (mul_nonneg hc hMi) ?_
      apply Real.sin_nonneg_of_nonneg_of_le_pi <;> push_cast <;> linarith
    · refine mul_nonneg (mul_nonneg hc hMi) ?_
      apply Real.sin_nonneg_of_nonneg_of_le_pi <;> push_cast <;> linarith
  · subst e4
    have hu : theta < -120 * Real.pi / 180 := theta_lt_of_deg _ _ h.1
    have hl : -180 * Real.pi / 180 < theta := deg_lt_theta _ _ h.2
    constructor
    · refine mul_nonneg (mul_nonneg hc hMi) ?_
      rw [← Real.sin_sub_two_pi]
      apply Real.sin_nonneg_of_nonneg_of_le_pi <;> push_cast <;> linarith
    · refine mul_nonneg (mul_nonneg hc hMi) ?_
      rw [← Real.sin_add_two_pi]
      apply Real.sin_nonneg_of_nonneg_of_le_pi <;> push_cast <;> linarith
  · subst e5
    have hu : theta < -60 * Real.pi / 180 := theta_lt_of_deg _ _ h.1
    have hl : -120 * Real.pi / 180 ≤ theta := deg_le_theta _ _ h.2
    constructor
    · refine mul_nonneg (mul_nonneg hc hMi) ?_
      rw [← Real.sin_sub_two_pi]
      apply Real.sin_nonneg_of_nonneg_of_le_pi <;> push_cast <;> linarith
    · refine mul_nonneg (mul_nonneg hc hMi) ?_
      rw [← Real.sin_add_two_pi]
      apply Real.sin_nonneg_of_nonneg_of_le_pi <;> push_cast <;> linarith
  · subst e6
    have hu : theta < 0 * Real.pi / 180 := theta_lt_of_deg _ _ h.1
    have hl : -60 * Real.pi / 180 ≤ theta := deg_le_theta _ _ h.2
    constructor
    · refine mul_nonneg (mul_nonneg hc hMi) ?_
      rw [← Real.sin_sub_two_pi]
      apply Real.sin_nonneg_of_nonneg_of_le_pi <;> push_cast <;> linarith
    · refine mul_nonneg (mul_nonneg hc hMi) ?_
      rw [← Real.sin_add_two_pi]
      apply Real.sin_nonneg_of_nonneg_of_le_pi <;> push_cast <;> linarith

/-- C3: for every stationary-frame input whose computed angle satisfies
the wedge condition of the sector n selected for it, the dwell times
satisfy T1 + T2 + Tz = Ts exactly in real arithmetic: del1 and del2 are
then nonnegative, so del3 = 1 - fabs(del1) - fabs(del2) makes the three
fractions sum to one. -/
theorem C3_dwell_times_sum (u0 u1 Ts : ℝ) (n : ℕ)
    (h : sectorCond n (degOf u0 u1)) :
    (dwellTimes u0 u1 Ts).1 + (dwellTimes u0 u1 Ts).2.1
      + (dwellTimes u0 u1 Ts).2.2 = Ts := by
  have hsec : sector (degOf u0 u1) = n := sector_eq_of_sectorCond n _ h
  have hMi : 0 ≤ modIndex u0 u1 := Real.sqrt_nonneg _
  have h' : sectorCond n (angleOf u0 u1 * 180 / Real.pi) := h
  obtain ⟨hd1, hd2⟩ := del_nonneg (modIndex u0 u1) (angleOf u0 u1) n hMi h'
  show del1 (modIndex u0 u1) (angleOf u0 u1) (sector (degOf u0 u1)) * Ts
      + del2 (modIndex u0 u1) (angleOf u0 u1) (sector (degOf u0 u1)) * Ts
      + del3 (modIndex u0 u1) (angleOf u0 u1) (sector (degOf u0 u1)) * Ts = Ts
  rw [hsec]
  unfold del3
  rw [abs_of_nonneg hd1, abs_of_nonneg hd2]
  ring

/-- Witness for C3 at the concrete input u0 = 16384, u1 = 0 (descaled
vector (1, 0), angle 0, sector 1) and Ts = 1. -/
theorem C3_dwell_times_sum_witness :
    sectorCond 1 (degOf 16384 0) ∧
    (dwellTimes 16384 0 1).1 + (dwellTimes 16384 0 1).2.1
      + (dwellTimes 16384 0 1).2.2 = 1 := by
  have hdeg : degOf 16384 0 = 0 := by
    unfold degOf angleOf atan2
    have h14 : (16384 : ℝ) / 2 ^ 14 = 1 := by norm_num
    have h00 : (0 : ℝ) / 2 ^ 14 = 0 := by norm_num
    rw [h14, h00, show (⟨1, 0⟩ : ℂ) = 1 from Complex.ext rfl rfl, Complex.arg_one]
    norm_num
  have h1 : sectorCond 1 (degOf 16384 0) := by
    rw [hdeg]
    simp [sectorCond]
  exact ⟨h1, C3_dwell_times_sum 16384 0 1 1 h1⟩

end Svpwm
